import Mathlib

/-!
Verification of the HTML serializer in
`packages/serializers/html/src/serializer/serializeHTMLFromNodes.ts`.

Strings are modelled as `List Char`.  The external markup renderer
(`renderToStaticMarkup ∘ createElementWithSlate`) is an opaque function
parameter `render : Option SP → Str → Str` taking the (optional) slate
props and the markup-children value produced by a plugin.  Plugin
render/serialize callbacks are modelled as returning markup strings.
`decodeURIComponent` returns `Option Str` (`none` models a thrown
`URIError` on malformed percent-sequences); `encodeURIComponent` is total
(its inputs are valid Unicode scalar sequences).
-/

set_option maxRecDepth 10000

abbrev Str := List Char

/-- Value of a hexadecimal digit character, as used by `decodeURIComponent`
when reading a `%XX` escape (digits, upper-case and lower-case letters, by
code point). -/
def hexVal (c : Char) : Option Nat :=
  let n := c.toNat
  if 48 ≤ n ∧ n ≤ 57 then some (n - 48)
  else if 65 ≤ n ∧ n ≤ 70 then some (n - 55)
  else if 97 ≤ n ∧ n ≤ 102 then some (n - 87)
  else none

/-- Upper-case hexadecimal digit for `n < 16`, as emitted by
`encodeURIComponent` (code point 48 + n for digits, 55 + n for letters). -/
def hexDigit (n : Nat) : Char :=
  Char.ofNat (if n < 10 then 48 + n else 55 + n)

/-- UTF-8 bytes of a Unicode scalar value (each entry is `< 256`). -/
def utf8Bytes (c : Char) : List Nat :=
  let n := c.toNat
  if n < 0x80 then [n]
  else if n < 0x800 then [0xC0 + n / 64, 0x80 + n % 64]
  else if n < 0x10000 then
    [0xE0 + n / 4096, 0x80 + (n / 64) % 64, 0x80 + n % 64]
  else
    [0xF0 + n / 262144, 0x80 + (n / 4096) % 64, 0x80 + (n / 64) % 64,
      0x80 + n % 64]

/-- Percent-escape of one byte: `%XY` with upper-case hex digits. -/
def pctByte (b : Nat) : Str := ['%', hexDigit (b / 16), hexDigit (b % 16)]

/-- Characters `encodeURIComponent` leaves unescaped:
`A-Z a-z 0-9 - _ . ! ~ * ' ( )`. -/
def isUnreservedChar (c : Char) : Bool :=
  decide (('A' ≤ c ∧ c ≤ 'Z') ∨ ('a' ≤ c ∧ c ≤ 'z') ∨ ('0' ≤ c ∧ c ≤ '9') ∨
    c = '-' ∨ c = '_' ∨ c = '.' ∨ c = '!' ∨ c = '~' ∨ c = '*' ∨
    c = Char.ofNat 39 ∨ c = '(' ∨ c = ')')

/-- One character of `encodeURIComponent`. -/
def encodeChar (c : Char) : Str :=
  if isUnreservedChar c then [c] else List.flatten ((utf8Bytes c).map pctByte)

/-- JavaScript `encodeURIComponent`. -/
def encodeURIComponent (s : Str) : Str := List.flatten (s.map encodeChar)

/-- Read two hex digits as one byte value, with the remainder. -/
def readHexPair : Str → Option (Nat × Str)
  | h1 :: h2 :: r =>
    match hexVal h1, hexVal h2 with
    | some d1, some d2 => some (16 * d1 + d2, r)
    | _, _ => none
  | _ => none

/-- Read one percent-escaped UTF-8 continuation byte (`%XY` with
`0x80 ≤ XY < 0xC0`), with the remainder. -/
def readContByte : Str → Option (Nat × Str)
  | [] => none
  | e :: r =>
    if e = '%' then
      match readHexPair r with
      | some (b, r2) => if 0x80 ≤ b ∧ b < 0xC0 then some (b, r2) else none
      | none => none
    else none

/-- Decode one entity at the head of the string: a raw character passes
through; a `%` starts a percent-escaped UTF-8 byte sequence whose decoded
scalar value is returned with the remainder.  `none` models a `URIError`:
missing or invalid hex digits, a truncated sequence, an invalid lead or
continuation byte, an overlong encoding, a surrogate, or a value above
`0x10FFFF`. -/
def decodeStep : Str → Option (Char × Str)
  | [] => none
  | c :: rest =>
    if c = '%' then
      match readHexPair rest with
      | none => none
      | some (b1, r1) =>
        if b1 < 0x80 then some (Char.ofNat b1, r1)
        else if b1 < 0xC0 then none
        else if b1 < 0xE0 then
          match readContByte r1 with
          | none => none
          | some (b2, r2) =>
            if (b1 - 0xC0) * 64 + (b2 - 0x80) < 0x80 then none
            else some (Char.ofNat ((b1 - 0xC0) * 64 + (b2 - 0x80)), r2)
        else if b1 < 0xF0 then
          match readContByte r1 with
          | none => none
          | some (b2, r2) =>
            match readContByte r2 with
            | none => none
            | some (b3, r3) =>
              if (b1 - 0xE0) * 4096 + (b2 - 0x80) * 64 + (b3 - 0x80) < 0x800 ∨
                  (0xD800 ≤ (b1 - 0xE0) * 4096 + (b2 - 0x80) * 64 + (b3 - 0x80) ∧
                    (b1 - 0xE0) * 4096 + (b2 - 0x80) * 64 + (b3 - 0x80) < 0xE000)
              then none
              else some (Char.ofNat
                ((b1 - 0xE0) * 4096 + (b2 - 0x80) * 64 + (b3 - 0x80)), r3)
        else if b1 < 0xF8 then
          match readContByte r1 with
          | none => none
          | some (b2, r2) =>
            match readContByte r2 with
            | none => none
            | some (b3, r3) =>
              match readContByte r3 with
              | none => none
              | some (b4, r4) =>
                if 0x10000 ≤ (b1 - 0xF0) * 262144 + (b2 - 0x80) * 4096 +
                      (b3 - 0x80) * 64 + (b4 - 0x80) ∧
                    (b1 - 0xF0) * 262144 + (b2 - 0x80) * 4096 +
                      (b3 - 0x80) * 64 + (b4 - 0x80) < 0x110000 then
                  some (Char.ofNat ((b1 - 0xF0) * 262144 + (b2 - 0x80) * 4096 +
                    (b3 - 0x80) * 64 + (b4 - 0x80)), r4)
                else none
        else none
    else some (c, rest)

/-- Iterate `decodeStep`.  `fuel` bounds the number of steps; every step
consumes at least one character, so `fuel = s.length` never runs out (see
`decodeGo_irrel`). -/
def decodeGo : Nat → Str → Option Str
  | _, [] => some []
  | 0, _ => none
  | fuel + 1, c :: rest =>
    match decodeStep (c :: rest) with
    | none => none
    | some (ch, rem) => (decodeGo fuel rem).map (fun t => ch :: t)

/-- JavaScript `decodeURIComponent`; `none` models a thrown `URIError`. -/
def decodeSeq (s : Str) : Option Str := decodeGo s.length s

/-- Source `isEncoded`: `str !== decodeURIComponent(str)`, with a
thrown decode error caught and turned into `false`. -/
def isEncoded (s : Str) : Bool :=
  match decodeSeq s with
  | some t => decide (t ≠ s)
  | none => false

/-- Source `trimWhitespace`: the regex `(\r\n|\n|\r|\t)` replaced
globally by the empty string, i.e. every `\r`, `\n` and `\t` removed. -/
def trimWhitespace (s : Str) : Str :=
  s.filter (fun c => decide (c ≠ '\r' ∧ c ≠ '\n' ∧ c ≠ '\t'))

/-- Literal string match: if `pat` is a prefix of `s`, the remainder of `s`
after it. -/
def matchLit : Str → Str → Option Str
  | [], s => some s
  | _, [] => none
  | p :: ps, c :: cs => if c = p then matchLit ps cs else none

/-- Split at the first `"` character: the run of non-quote characters before
it and the remainder after it (`none` if there is no closing quote). -/
def splitQuote : Str → Option (Str × Str)
  | [] => none
  | c :: rest =>
    if c = '"' then some ([], rest)
    else (splitQuote rest).map (fun vr => (c :: vr.1, vr.2))

/-- Match one of the literal attribute openers `pats` followed by the regex
`[^"]+"` (a non-empty quoted value); returns the remainder after the match.
Models one alternation step of the `stripSlateDataAttributes` regexes. -/
def attrMatch : List Str → Str → Option Str
  | [], _ => none
  | p :: ps, s =>
    match matchLit p s with
    | some rest =>
      match splitQuote rest with
      | some (v, rem) => if v = [] then attrMatch ps s else some rem
      | none => attrMatch ps s
    | none => attrMatch ps s

/-- One global-replace pass: scan left to right, delete every match of
`attrMatch pats`, keep other characters.  `fuel` bounds the scan; it is
always instantiated with the length of the string, which suffices because
every step consumes at least one character. -/
def stripAttrsGo (pats : List Str) : Nat → Str → Str
  | _, [] => []
  | 0, s => s
  | fuel + 1, c :: rest =>
    match attrMatch pats (c :: rest) with
    | some rem => stripAttrsGo pats fuel rem
    | none => c :: stripAttrsGo pats fuel rest

/-- Openers of the first `stripSlateDataAttributes` regex
`( data-slate)(-node|-type|-leaf)="[^"]+"`, in alternation order. -/
def slateAttrPats : List Str :=
  [(" data-slate-node=\"".toList), (" data-slate-type=\"".toList),
    (" data-slate-leaf=\"".toList)]

/-- Opener of the second `stripSlateDataAttributes` regex
`( data-testid)="[^"]+"`. -/
def testidAttrPats : List Str := [(" data-testid=\"".toList)]

/-- Source `stripSlateDataAttributes`: two successive global
regex-replace passes, first the `data-slate-*` attributes, then
`data-testid`. -/
def stripSlateDataAttributes (s : Str) : Str :=
  let s1 := stripAttrsGo slateAttrPats s.length s
  stripAttrsGo testidAttrPats s1.length s1

/-- First match of one of the prefixes `pfxs` followed by the greedy
`[^"\s]*`, at the current position; returns the match and the remainder.
Models one step of the `preserveRegExp` of `stripClassNames`. -/
def classTokenMatch : List Str → Str → Option (Str × Str)
  | [], _ => none
  | p :: ps, s =>
    match matchLit p s with
    | some rest =>
      let run := rest.takeWhile (fun c =>
        decide (c ≠ '"' ∧ c ≠ ' ' ∧ c ≠ '\t' ∧ c ≠ '\n' ∧ c ≠ '\r'))
      some (p ++ run, rest.drop run.length)
    | none => classTokenMatch ps s

/-- All matches of `classTokenMatch pfxs` in a string, left to right,
non-overlapping (the `match` with a global regex in `stripClassNames`). -/
def classTokensGo (pfxs : List Str) : Nat → Str → List Str
  | _, [] => []
  | 0, _ => []
  | fuel + 1, c :: rest =>
    match classTokenMatch pfxs (c :: rest) with
    | some (m, rem) => m :: classTokensGo pfxs fuel rem
    | none => classTokensGo pfxs fuel rest

/-- Join a list of strings with single spaces (`Array.join(' ')`). -/
def joinSpaces : List Str → Str
  | [] => []
  | [s] => s
  | s :: rest => s ++ ' ' :: joinSpaces rest

/-- Rewrite of one matched `class="..."` item by `stripClassNames`: keep
only the tokens matching a preserve prefix; drop the whole attribute when no
token matches. -/
def rewriteClassItem (pfxs : List Str) (item : Str) : Str :=
  let ms := classTokensGo pfxs item.length item
  if ms = [] then [] else ("class=\"".toList) ++ joinSpaces ms ++ ['"']

/-- Match `class="[^"]*"` at the current position; returns the whole
matched item and the remainder. -/
def classAttrMatch (s : Str) : Option (Str × Str) :=
  match matchLit ("class=\"".toList) s with
  | some rest =>
    match splitQuote rest with
    | some (v, rem) => some ("class=\"".toList ++ v ++ ['"'], rem)
    | none => none
  | none => none

/-- Scan for `class="..."` items and rewrite each through
`rewriteClassItem`, keeping everything in between (the split-on-captures
loop of `stripClassNames`). -/
def stripCNGo (pfxs : List Str) : Nat → Str → Str
  | _, [] => []
  | 0, s => s
  | fuel + 1, c :: rest =>
    match classAttrMatch (c :: rest) with
    | some (item, rem) => rewriteClassItem pfxs item ++ stripCNGo pfxs fuel rem
    | none => c :: stripCNGo pfxs fuel rest

/-- Source `stripClassNames`, with the default preserve list
`['slate-']` supplied when the option is absent. -/
def stripClassNames (pcn : Option (List Str)) (html : Str) : Str :=
  stripCNGo (pcn.getD [("slate-".toList)]) html.length html

/-- A slate `Text` node: the leaf text plus its formatting marks (extra
boolean properties such as `bold`). -/
structure TText where
  text : Str
  marks : List (Str × Bool)
deriving DecidableEq

/-- A sequence of slate descendants (`TDescendant[]`): each entry is either
a text leaf (recognised by `Text.isText`) or an element with an optional
`type` and children.  The sequence is fused into one inductive so that the
serializer's tree walk is plain structural recursion. -/
inductive NodeList where
  | nil : NodeList
  | consLeaf (t : TText) (rest : NodeList)
  | consElem (nodeType : Option Str) (children : NodeList) (rest : NodeList)

/-- A single slate descendant, as stored in `elementProps.element`. -/
inductive NodeV where
  | leafV (t : TText)
  | elemV (nodeType : Option Str) (children : NodeList)

/-- The `type` field read by `getNode` (`elementProps.element.type`);
a leaf has none. -/
def NodeV.nodeTypeOf : NodeV → Option Str
  | .leafV _ => none
  | .elemV ty _ => ty

/-- The singleton sequences of the entries of a node sequence, in order
(used to state the sibling-concatenation property). -/
def singletons : NodeList → List NodeList
  | .nil => []
  | .consLeaf t rest => .consLeaf t .nil :: singletons rest
  | .consElem ty ch rest => .consElem ty ch .nil :: singletons rest

/-- JavaScript falsiness of the `type` field (`!elementProps.element.type`):
`undefined`/absent or the empty string. -/
def isFalsyType : Option Str → Bool
  | none => true
  | some s => decide (s = [])

/-- JavaScript `String(x)` on the optional `type` value (used in the
ownership comparison `item.type === String(elementProps.element.type)`). -/
def strJS : Option Str → Str
  | none => ("undefined".toList)
  | some s => s

/-- The `PlateRenderElementProps` record as constructed by the serializer: the element
node, the (string) children markup, the bookkeeping attributes and the
editor.  The source also passes the plugin list through; plugin callbacks in
this model do not depend on it. -/
structure ElementProps (E : Type) where
  element : NodeV
  children : Str
  attributes : List (Str × Str)
  editor : E

/-- The `PlateRenderLeafProps` record as constructed by the serializer. -/
structure LeafProps (E : Type) where
  leaf : TText
  text : TText
  children : Str
  attributes : List (Str × Str)
  editor : E

/-- One props-override function produced by a plugin's `overrideProps`
entry applied to the editor.  The source value is polymorphic over the
props record; it is modelled by its two instantiations. -/
structure Overrider (E : Type) where
  onElement : ElementProps E → ElementProps E
  onLeaf : LeafProps E → LeafProps E

/-- One entry of a plugin's `deserialize(editor).element` listing: the
element type the plugin declares ownership of. -/
structure DeserializeRule where
  ruleType : Str

/-- The result of `plugin.deserialize?.(editor)`: an optional listing of
owned element types. -/
structure DeserializeOutput where
  element : Option (List DeserializeRule)

/-- A `PlatePlugin`, restricted to the capabilities the serializer reads.
`serializeElement`/`renderElement`/`serializeLeaf`/`renderLeaf` return the
markup-children value (modelled as a string) handed to the external
renderer.  `overrideProps` is the `castArray`-flattened list of callbacks,
each producing a list of overriders from the editor. -/
structure PlatePlugin (E : Type) where
  serializeElement : Option (ElementProps E → Str) := none
  renderElement : Option (E → ElementProps E → Str) := none
  serializeLeaf : Option (LeafProps E → Str) := none
  renderLeaf : Option (E → LeafProps E → Str) := none
  overrideProps : List (E → List (Overrider E)) := []
  deserialize : Option (E → DeserializeOutput) := none

/-- Options record of `serializeHTMLFromNodes` (with the source defaults). -/
structure SerializeOptions (SP : Type) where
  slateProps : Option SP := none
  stripDataAttributes : Bool := true
  preserveClassNames : Option (List Str) := none
  stripWhitespace : Bool := true

/-- Collect the overrider pipeline:
`plugins.flatMap(p => castArray(p.overrideProps).flatMap(cb => cb?.(editor) ?? []))`. -/
def collectOverriders {E : Type} (editor : E) (plugins : List (PlatePlugin E)) :
    List (Overrider E) :=
  List.flatten (plugins.map (fun p =>
    List.flatten (p.overrideProps.map (fun cb => cb editor))))

/-- Modelled from the spec: `pipeOverrideProps` is imported from
`@udecode/plate-core`, whose source is not part of this excerpt.  Per the
spec (§4.4) the overriders are applied in order, each receiving the previous
step's output — element-props instantiation. -/
def pipeOverridePropsElem {E : Type} (props : ElementProps E)
    (ovs : List (Overrider E)) : ElementProps E :=
  ovs.foldl (fun acc o => o.onElement acc) props

/-- Modelled from the spec: `pipeOverrideProps` (see
`pipeOverridePropsElem`) — leaf-props instantiation. -/
def pipeOverridePropsLeaf {E : Type} (props : LeafProps E)
    (ovs : List (Overrider E)) : LeafProps E :=
  ovs.foldl (fun acc o => o.onLeaf acc) props

/-- The expression `plugin.serialize?.element?.(elementProps) ?? plugin.renderElement?.(editor)(elementProps)`:
the plugin's markup-children for an element, `none` when the plugin exposes
neither capability. -/
def elemOut {E : Type} (p : PlatePlugin E) (editor : E)
    (props : ElementProps E) : Option Str :=
  match p.serializeElement with
  | some f => some (f props)
  | none =>
    match p.renderElement with
    | some g => some (g editor props)
    | none => none

/-- The expression `plugin.serialize?.leaf?.(leafProps) ?? plugin.renderLeaf?.(editor)(leafProps)`:
the plugin's markup-children for a leaf, `none` when the plugin exposes
neither capability. -/
def leafOut {E : Type} (p : PlatePlugin E) (editor : E)
    (props : LeafProps E) : Option Str :=
  match p.serializeLeaf with
  | some f => some (f props)
  | none =>
    match p.renderLeaf with
    | some g => some (g editor props)
    | none => none

/-- Ownership check of the element dispatch:
`plugin.deserialize?.(editor).element?.some(item => item.type === String(...))`. -/
def ownsType {E : Type} (p : PlatePlugin E) (editor : E) (tyStr : Str) : Bool :=
  match p.deserialize with
  | none => false
  | some f =>
    match (f editor).element with
    | none => false
    | some rules => rules.any (fun r => decide (r.ruleType = tyStr))

/-- The `plugins.some(...)` scan of `getNode` over the (override-piped)
element props.  `html` is the mutable `let html` of the source: a plugin
with neither element capability is skipped; a capable plugin that does not
own the type records the `<div>` fallback and the scan continues; a capable
owning plugin renders (through the external renderer) and stops the scan. -/
def getNodeLoop {E SP : Type} (render : Option SP → Str → Str) (editor : E)
    (sp : Option SP) (pcn : Option (List Str)) (props : ElementProps E) :
    List (PlatePlugin E) → Option Str → Option Str
  | [], html => html
  | p :: rest, html =>
    match elemOut p editor props with
    | none => getNodeLoop render editor sp pcn props rest html
    | some out =>
      if ownsType p editor (strJS props.element.nodeTypeOf) then
        some (stripClassNames pcn (render sp out))
      else
        getNodeLoop render editor sp pcn props rest
          (some ("<div>".toList ++ props.children ++ ("</div>".toList)))

/-- Source `getNode`: untyped (falsy-`type`) elements get the plain
`<div>` wrapper before anything else; otherwise the override pipeline is
applied to the props and the plugin scan runs.  `none` models the
`undefined` result when no capable plugin exists. -/
def getNode {E SP : Type} (render : Option SP → Str → Str) (editor : E)
    (plugins : List (PlatePlugin E)) (sp : Option SP)
    (pcn : Option (List Str)) (props : ElementProps E) : Option Str :=
  if isFalsyType props.element.nodeTypeOf then
    some ("<div>".toList ++ props.children ++ ("</div>".toList))
  else
    let ovs := collectOverriders editor plugins
    let props1 := pipeOverridePropsElem props ovs
    getNodeLoop render editor sp pcn props1 plugins none

/-- The `plugins.reduce(...)` fold of `getLeaf`.  `children` is the constant
destructured from the initial leaf props; `result` is the accumulator and
`lp` the mutable `leafProps` variable (reassigned only on non-skip steps).
A `none` result models the uncaught `URIError` thrown by the
`decodeURIComponent` wrapped around the render. -/
def getLeafLoop {E SP : Type} (render : Option SP → Str → Str) (editor : E)
    (sp : Option SP) (pcn : Option (List Str)) (children : Str)
    (ovs : List (Overrider E)) :
    List (PlatePlugin E) → Str → LeafProps E → Option Str
  | [], result, _ => some result
  | p :: rest, result, lp =>
    match leafOut p editor lp with
    | none => getLeafLoop render editor sp pcn children ovs rest result lp
    | some out =>
      if out = children then
        getLeafLoop render editor sp pcn children ovs rest result lp
      else
        let lp1 := pipeOverridePropsLeaf lp ovs
        let lp2 := { lp1 with children := encodeURIComponent result }
        match decodeSeq (render sp ((leafOut p editor lp2).getD [])) with
        | none => none
        | some html =>
          getLeafLoop render editor sp pcn children ovs rest
            (stripClassNames pcn html) lp2

/-- Source `getLeaf`. -/
def getLeaf {E SP : Type} (render : Option SP → Str → Str) (editor : E)
    (plugins : List (PlatePlugin E)) (sp : Option SP)
    (pcn : Option (List Str)) (lp : LeafProps E) : Option Str :=
  getLeafLoop render editor sp pcn lp.children
    (collectOverriders editor plugins) plugins lp.children lp

/-- The post-processing tail of `serializeHTMLFromNodes` (lines 257–268):
decode-if-`isEncoded` (the second `decodeURIComponent` call cannot fail when
`isEncoded` returned true, hence the irrelevant `getD`), then the optional
whitespace strip, then the optional data-attribute strip. -/
def postProcess {SP : Type} (opts : SerializeOptions SP) (result : Str) : Str :=
  let r1 := if isEncoded result then (decodeSeq result).getD result else result
  let r2 := if opts.stripWhitespace then trimWhitespace r1 else r1
  if opts.stripDataAttributes then stripSlateDataAttributes r2 else r2

/-- The options of the recursive inner call
`serializeHTMLFromNodes(editor, {plugins, nodes: node.children, preserveClassNames, stripWhitespace})`:
`preserveClassNames` and `stripWhitespace` are threaded, `slateProps` is not
passed (so `undefined`), and `stripDataAttributes` falls back to its default
`true`. -/
def innerOpts {SP : Type} (opts : SerializeOptions SP) : SerializeOptions SP :=
  { slateProps := none, stripDataAttributes := true,
    preserveClassNames := opts.preserveClassNames,
    stripWhitespace := opts.stripWhitespace }

/-- The leaf props built by the serializer for a text node:
`{leaf: node, text: node, children: isEncoded(text) ? text : encodeURIComponent(text),
attributes: {'data-slate-leaf': true}, editor, plugins}`. -/
def leafPropsOf {E : Type} (editor : E) (t : TText) : LeafProps E :=
  { leaf := t, text := t,
    children := if isEncoded t.text then t.text else encodeURIComponent t.text,
    attributes := [("data-slate-leaf".toList, ("true".toList))],
    editor := editor }

/-- The `nodes.map(...)` loop producing the per-node fragments (`none`
propagates a thrown exception).  A leaf goes to `getLeaf` with fresh leaf
props.  An element first recursively serializes its children — the full
`serializeHTMLFromNodes` with `preserveClassNames` and `stripWhitespace`
threaded and everything else defaulted, here inlined as fragment production
plus the post-processing tail — percent-encodes the result, and goes to
`getNode`, whose `undefined` result joins as the empty string (`getD []`). -/
def serializeFragments {E SP : Type} (render : Option SP → Str → Str)
    (editor : E) (plugins : List (PlatePlugin E)) :
    SerializeOptions SP → NodeList → Option (List Str)
  | _, .nil => some []
  | opts, .consLeaf t rest =>
    match
      getLeaf render editor plugins opts.slateProps opts.preserveClassNames
        (leafPropsOf editor t) with
    | none => none
    | some f =>
      match serializeFragments render editor plugins opts rest with
      | none => none
      | some fs => some (f :: fs)
  | opts, .consElem ty ch rest =>
    match serializeFragments render editor plugins (innerOpts opts) ch with
    | none => none
    | some innerFrags =>
      match serializeFragments render editor plugins opts rest with
      | none => none
      | some fs =>
        some (((getNode render editor plugins opts.slateProps
          opts.preserveClassNames
          { element := .elemV ty ch,
            children := encodeURIComponent
              (postProcess (innerOpts opts) (List.flatten innerFrags)),
            attributes := [("data-slate-node".toList, ("element".toList))],
            editor := editor }).getD []) :: fs)

/-- Source `serializeHTMLFromNodes`: map every node to its
fragment (recursing into element children), join with `''`, then
post-process. -/
def serializeHTMLFromNodes {E SP : Type} (render : Option SP → Str → Str)
    (editor : E) (plugins : List (PlatePlugin E))
    (opts : SerializeOptions SP) (nodes : NodeList) : Option Str :=
  (serializeFragments render editor plugins opts nodes).map
    (fun frags => postProcess opts (List.flatten frags))

/-- Fragment production for the reading of the spec under scrutiny in the
refinement comparison: written from the spec's words, "the post-processing
pipeline runs exactly once, at the outermost serialize call; recursive inner
calls must NOT re-apply it".  Children of an element are the joined raw
inner fragments, percent-encoded, with no decode/whitespace/attribute pass
at inner levels. -/
def specFrags {E SP : Type} (render : Option SP → Str → Str)
    (editor : E) (plugins : List (PlatePlugin E)) :
    SerializeOptions SP → NodeList → Option (List Str)
  | _, .nil => some []
  | opts, .consLeaf t rest =>
    match
      getLeaf render editor plugins opts.slateProps opts.preserveClassNames
        (leafPropsOf editor t) with
    | none => none
    | some f =>
      match specFrags render editor plugins opts rest with
      | none => none
      | some fs => some (f :: fs)
  | opts, .consElem ty ch rest =>
    match specFrags render editor plugins (innerOpts opts) ch with
    | none => none
    | some innerFrags =>
      match specFrags render editor plugins opts rest with
      | none => none
      | some fs =>
        some (((getNode render editor plugins opts.slateProps
          opts.preserveClassNames
          { element := .elemV ty ch,
            children := encodeURIComponent (List.flatten innerFrags),
            attributes := [("data-slate-node".toList, ("element".toList))],
            editor := editor }).getD []) :: fs)

/-- The spec's reading of the serializer (refinement comparison for the
once-only post-processing claim): identical tree walk and dispatch, but the
decode/whitespace/attribute passes run only once, at the outermost call. -/
def serializeSpecOnce {E SP : Type} (render : Option SP → Str → Str)
    (editor : E) (plugins : List (PlatePlugin E))
    (opts : SerializeOptions SP) (nodes : NodeList) : Option Str :=
  (specFrags render editor plugins opts nodes).map
    (fun frags => postProcess opts (List.flatten frags))

/-- Concrete external renderer used by witnesses and counterexamples: the
markup of a vnode is its children markup (slate wrapper adds nothing). -/
def render0 : Option Unit → Str → Str := fun _ ch => ch

/-- The default options record (all source defaults). -/
def defOpts : SerializeOptions Unit := {}

/-- Options with both optional stripping passes disabled. -/
def noStripOpts : SerializeOptions Unit :=
  { stripWhitespace := false, stripDataAttributes := false }

/-- Options with the data-attribute strip disabled (whitespace default). -/
def noDataOpts : SerializeOptions Unit := { stripDataAttributes := false }

/-- A plugin with element-render capability but no `deserialize` listing
(hence owning no type). -/
def pCapOnly : PlatePlugin Unit :=
  { renderElement := some (fun _ _ => ("P1".toList)) }

/-- A plugin owning element type `t`, rendering the markup `E`. -/
def pOwnT : PlatePlugin Unit :=
  { serializeElement := some (fun _ => ("E".toList)),
    deserialize := some (fun _ => ⟨some [⟨("t".toList)⟩]⟩) }

/-- A plugin that renders every leaf as the markup `X`. -/
def pLeafX : PlatePlugin Unit :=
  { renderLeaf := some (fun _ _ => ("X".toList)) }

/-- A plugin with element capability owning only type `other`. -/
def pOwnOther : PlatePlugin Unit :=
  { renderElement := some (fun _ _ => ("O".toList)),
    deserialize := some (fun _ => ⟨some [⟨("other".toList)⟩]⟩) }

/-- A plugin owning type `t` whose render carries an empty-valued
`data-testid` attribute. -/
def pEmptyTestid : PlatePlugin Unit :=
  { serializeElement := some (fun _ => ("<p data-testid=\"\">a</p>".toList)),
    deserialize := some (fun _ => ⟨some [⟨("t".toList)⟩]⟩) }

/-- A plugin owning type `t` whose render carries a `data-slate-node` and a
`data-testid` attribute with non-empty values. -/
def pDataAttrs : PlatePlugin Unit :=
  { serializeElement := some
      (fun _ => ("<p data-slate-node=\"element\" data-testid=\"x\">a</p>".toList)),
    deserialize := some (fun _ => ⟨some [⟨("t".toList)⟩]⟩) }

/-- A pure leaf plugin whose renders produce interacting percent-fragments:
`%254` for the leaf `x` and `1` for any other leaf. -/
def pSplitPct : PlatePlugin Unit :=
  { renderLeaf := some (fun _ lp =>
      if lp.leaf.text = ("x".toList) then ("%254".toList) else ("1".toList)) }

/-- A plugin owning type `t` that also contributes an override setting every
element's `type` to `t`. -/
def pOverT : PlatePlugin Unit :=
  { renderElement := some (fun _ _ => ("E".toList)),
    deserialize := some (fun _ => ⟨some [⟨("t".toList)⟩]⟩),
    overrideProps := [fun _ =>
      [⟨fun pr => { pr with element := .elemV (some ("t".toList)) .nil },
        fun lp => lp⟩]] }

/-- A leaf plugin whose render echoes the current `children` value (a
no-op decoration for every leaf). -/
def pEcho : PlatePlugin Unit :=
  { renderLeaf := some (fun _ lp => lp.children) }

/-- Drop the `overrideProps` contribution of a plugin. -/
def dropOverrideProps {E : Type} (p : PlatePlugin E) : PlatePlugin E :=
  { p with overrideProps := [] }

/-- Concrete element props of type `t` used by witnesses. -/
def propsT : ElementProps Unit :=
  { element := .elemV (some ("t".toList)) .nil, children := ("c".toList),
    attributes := [], editor := () }

/-- Concrete element props of type `u` used by witnesses. -/
def propsU : ElementProps Unit :=
  { element := .elemV (some ("u".toList)) .nil, children := ("c".toList),
    attributes := [], editor := () }

/-- Concrete untyped element props used by witnesses. -/
def propsUn : ElementProps Unit :=
  { element := .elemV none .nil, children := ("a".toList),
    attributes := [], editor := () }

/-- The nested input of the once-only post-processing comparison: an untyped
element whose single leaf text spells a `data-slate-node` attribute. -/
def nodeC2 : NodeList :=
  .consElem none (.consLeaf ⟨(" data-slate-node=\"x\"".toList), []⟩ .nil) .nil

/-! Round-trip of `decodeSeq` over `encodeURIComponent`. -/

theorem hexRound : ∀ d, d < 16 → hexVal (hexDigit d) = some d := by decide

theorem unreserved_ne_pct {c : Char} (h : isUnreservedChar c = true) :
    c ≠ '%' := by
  intro he
  subst he
  exact absurd h (by decide)

theorem readHexPair_length {s r : Str} {b : Nat}
    (h : readHexPair s = some (b, r)) : s.length = r.length + 2 := by
  unfold readHexPair at h
  split at h
  · split at h
    · simp only [Prod.mk.injEq, Option.some.injEq] at h
      obtain ⟨-, hr⟩ := h
      subst hr
      simp
    · simp at h
  · simp at h

theorem readContByte_length {s r : Str} {b : Nat}
    (h : readContByte s = some (b, r)) : s.length = r.length + 3 := by
  unfold readContByte at h
  split at h
  · simp at h
  · split at h
    · split at h
      · split at h
        · simp only [Prod.mk.injEq, Option.some.injEq] at h
          obtain ⟨-, hr⟩ := h
          subst hr
          have := readHexPair_length (by assumption)
          simpa using this
        · simp at h
      · simp at h
    · simp at h

theorem decodeStep_length {s r : Str} {c : Char}
    (h : decodeStep s = some (c, r)) : r.length < s.length := by
  unfold decodeStep at h
  split at h
  · simp at h
  · rename_i c0 rest
    split at h
    · split at h
      · simp at h
      · rename_i b1 r1 hhex
        have hl1 : rest.length = r1.length + 2 := readHexPair_length hhex
        split at h
        · simp only [Prod.mk.injEq, Option.some.injEq] at h
          obtain ⟨-, hr⟩ := h
          subst hr
          simp
          omega
        · split at h
          · simp at h
          · split at h
            · split at h
              · simp at h
              · rename_i b2 r2 hc1
                have hl2 : r1.length = r2.length + 3 := readContByte_length hc1
                split at h
                · simp at h
                · simp only [Prod.mk.injEq, Option.some.injEq] at h
                  obtain ⟨-, hr⟩ := h
                  subst hr
                  simp
                  omega
            · split at h
              · split at h
                · simp at h
                · rename_i b2 r2 hc1
                  have hl2 : r1.length = r2.length + 3 := readContByte_length hc1
                  split at h
                  · simp at h
                  · rename_i b3 r3 hc2
                    have hl3 : r2.length = r3.length + 3 := readContByte_length hc2
                    split at h
                    · simp at h
                    · simp only [Prod.mk.injEq, Option.some.injEq] at h
                      obtain ⟨-, hr⟩ := h
                      subst hr
                      simp
                      omega
              · split at h
                · split at h
                  · simp at h
                  · rename_i b2 r2 hc1
                    have hl2 : r1.length = r2.length + 3 := readContByte_length hc1
                    split at h
                    · simp at h
                    · rename_i b3 r3 hc2
                      have hl3 : r2.length = r3.length + 3 := readContByte_length hc2
                      split at h
                      · simp at h
                      · rename_i b4 r4 hc3
                        have hl4 : r3.length = r4.length + 3 :=
                          readContByte_length hc3
                        split at h
                        · simp only [Prod.mk.injEq, Option.some.injEq] at h
                          obtain ⟨-, hr⟩ := h
                          subst hr
                          simp
                          omega
                        · simp at h
                · simp at h
    · simp only [Prod.mk.injEq, Option.some.injEq] at h
      obtain ⟨-, hr⟩ := h
      subst hr
      simp

theorem decodeGo_irrel :
    ∀ f g : Nat, ∀ s : Str, s.length ≤ f → s.length ≤ g →
      decodeGo f s = decodeGo g s := by
  intro f
  induction f with
  | zero =>
    intro g s hf _
    have : s = [] := List.eq_nil_of_length_eq_zero (by omega)
    subst this
    cases g <;> rfl
  | succ f ih =>
    intro g s hf hg
    match s with
    | [] => cases g <;> rfl
    | c :: rest =>
      match g with
      | 0 => simp at hg
      | g + 1 =>
        show (match decodeStep (c :: rest) with
          | none => none
          | some (ch, rem) => (decodeGo f rem).map (fun t => ch :: t)) =
          (match decodeStep (c :: rest) with
          | none => none
          | some (ch, rem) => (decodeGo g rem).map (fun t => ch :: t))
        cases hstep : decodeStep (c :: rest) with
        | none => rfl
        | some pr =>
          obtain ⟨ch, rem⟩ := pr
          have hlt := decodeStep_length hstep
          simp only [List.length_cons] at hf hg hlt
          simp only []
          rw [ih g rem (by omega) (by omega)]

theorem decodeGo_eq_decodeSeq {f : Nat} {s : Str} (h : s.length ≤ f) :
    decodeGo f s = decodeSeq s :=
  decodeGo_irrel f s.length s h (Nat.le_refl _)

theorem readHexPair_hex (b : Nat) (hb : b < 256) (t : Str) :
    readHexPair (hexDigit (b / 16) :: hexDigit (b % 16) :: t) = some (b, t) := by
  have e1 := hexRound (b / 16) (by omega)
  have e2 := hexRound (b % 16) (by omega)
  have eb : 16 * (b / 16) + b % 16 = b := by omega
  simp only [readHexPair, e1, e2, eb]

theorem readContByte_pct (b : Nat) (h1 : 0x80 ≤ b) (h2 : b < 0xC0) (t : Str) :
    readContByte (pctByte b ++ t) = some (b, t) := by
  show readContByte ('%' :: hexDigit (b / 16) :: hexDigit (b % 16) :: t) = _
  simp only [readContByte]
  rw [if_true, readHexPair_hex b (by omega) t]
  simp only []
  rw [if_pos ⟨h1, h2⟩]

theorem decodeStep_raw {c : Char} (h : c ≠ '%') (t : Str) :
    decodeStep (c :: t) = some (c, t) := by
  simp only [decodeStep]
  rw [if_neg h]

theorem decodeStep_1byte (b : Nat) (hb : b < 0x80) (t : Str) :
    decodeStep (pctByte b ++ t) = some (Char.ofNat b, t) := by
  show decodeStep ('%' :: hexDigit (b / 16) :: hexDigit (b % 16) :: t) = _
  simp only [decodeStep]
  rw [if_true, readHexPair_hex b (by omega) t]
  simp only []
  rw [if_pos hb]

theorem decodeStep_2byte (n : Nat) (h1 : 0x80 ≤ n) (h2 : n < 0x800) (t : Str) :
    decodeStep (pctByte (0xC0 + n / 64) ++ (pctByte (0x80 + n % 64) ++ t)) =
      some (Char.ofNat n, t) := by
  show decodeStep ('%' :: hexDigit ((0xC0 + n / 64) / 16) ::
    hexDigit ((0xC0 + n / 64) % 16) :: (pctByte (0x80 + n % 64) ++ t)) = _
  simp only [decodeStep]
  rw [if_true, readHexPair_hex (0xC0 + n / 64) (by omega) _]
  simp only []
  have e1 : ¬ 0xC0 + n / 64 < 0x80 := by omega
  have e2 : ¬ 0xC0 + n / 64 < 0xC0 := by omega
  have e3 : 0xC0 + n / 64 < 0xE0 := by omega
  rw [if_neg e1, if_neg e2, if_pos e3,
    readContByte_pct (0x80 + n % 64) (by omega) (by omega) t]
  simp only []
  have hv : (0xC0 + n / 64 - 0xC0) * 64 + (0x80 + n % 64 - 0x80) = n := by
    omega
  rw [hv, if_neg (by omega)]

theorem decodeStep_3byte (n : Nat) (h1 : 0x800 ≤ n) (h2 : n < 0x10000)
    (h3 : ¬(0xD800 ≤ n ∧ n < 0xE000)) (t : Str) :
    decodeStep (pctByte (0xE0 + n / 4096) ++ (pctByte (0x80 + (n / 64) % 64) ++
      (pctByte (0x80 + n % 64) ++ t))) = some (Char.ofNat n, t) := by
  show decodeStep ('%' :: hexDigit ((0xE0 + n / 4096) / 16) ::
    hexDigit ((0xE0 + n / 4096) % 16) :: (pctByte (0x80 + (n / 64) % 64) ++
      (pctByte (0x80 + n % 64) ++ t))) = _
  simp only [decodeStep]
  rw [if_true, readHexPair_hex (0xE0 + n / 4096) (by omega) _]
  simp only []
  have e1 : ¬ 0xE0 + n / 4096 < 0x80 := by omega
  have e2 : ¬ 0xE0 + n / 4096 < 0xC0 := by omega
  have e3 : ¬ 0xE0 + n / 4096 < 0xE0 := by omega
  have e4 : 0xE0 + n / 4096 < 0xF0 := by omega
  rw [if_neg e1, if_neg e2, if_neg e3, if_pos e4,
    readContByte_pct (0x80 + (n / 64) % 64) (by omega) (by omega) _]
  simp only []
  rw [readContByte_pct (0x80 + n % 64) (by omega) (by omega) t]
  simp only []
  have hv : (0xE0 + n / 4096 - 0xE0) * 4096 + (0x80 + (n / 64) % 64 - 0x80) * 64 +
      (0x80 + n % 64 - 0x80) = n := by omega
  rw [hv, if_neg (by omega)]

theorem decodeStep_4byte (n : Nat) (h1 : 0x10000 ≤ n) (h2 : n < 0x110000)
    (t : Str) :
    decodeStep (pctByte (0xF0 + n / 262144) ++ (pctByte (0x80 + (n / 4096) % 64) ++
      (pctByte (0x80 + (n / 64) % 64) ++ (pctByte (0x80 + n % 64) ++ t)))) =
      some (Char.ofNat n, t) := by
  show decodeStep ('%' :: hexDigit ((0xF0 + n / 262144) / 16) ::
    hexDigit ((0xF0 + n / 262144) % 16) :: (pctByte (0x80 + (n / 4096) % 64) ++
      (pctByte (0x80 + (n / 64) % 64) ++ (pctByte (0x80 + n % 64) ++ t)))) = _
  simp only [decodeStep]
  rw [if_true, readHexPair_hex (0xF0 + n / 262144) (by omega) _]
  simp only []
  have e1 : ¬ 0xF0 + n / 262144 < 0x80 := by omega
  have e2 : ¬ 0xF0 + n / 262144 < 0xC0 := by omega
  have e3 : ¬ 0xF0 + n / 262144 < 0xE0 := by omega
  have e4 : ¬ 0xF0 + n / 262144 < 0xF0 := by omega
  have e5 : 0xF0 + n / 262144 < 0xF8 := by omega
  rw [if_neg e1, if_neg e2, if_neg e3, if_neg e4, if_pos e5,
    readContByte_pct (0x80 + (n / 4096) % 64) (by omega) (by omega) _]
  simp only []
  rw [readContByte_pct (0x80 + (n / 64) % 64) (by omega) (by omega) _]
  simp only []
  rw [readContByte_pct (0x80 + n % 64) (by omega) (by omega) t]
  simp only []
  have hv : (0xF0 + n / 262144 - 0xF0) * 262144 +
      (0x80 + (n / 4096) % 64 - 0x80) * 4096 +
      (0x80 + (n / 64) % 64 - 0x80) * 64 + (0x80 + n % 64 - 0x80) = n := by
    omega
  rw [hv, if_pos (by omega)]

theorem decodeSeq_step {s rem : Str} {c : Char}
    (h : decodeStep s = some (c, rem)) :
    decodeSeq s = (decodeSeq rem).map (fun t => c :: t) := by
  match s with
  | [] => exact absurd h (by simp [decodeStep])
  | c0 :: rest =>
    show decodeGo (rest.length + 1) (c0 :: rest) = _
    have hun : decodeGo (rest.length + 1) (c0 :: rest) =
        match decodeStep (c0 :: rest) with
        | none => none
        | some (ch, rm) => (decodeGo rest.length rm).map (fun t => ch :: t) :=
      rfl
    rw [hun, h]
    have hlt := decodeStep_length h
    simp only [List.length_cons] at hlt
    simp only []
    rw [decodeGo_eq_decodeSeq (by omega)]

theorem decode_encodeChar (c : Char) (t : Str) :
    decodeSeq (encodeChar c ++ t) = (decodeSeq t).map (fun r => c :: r) := by
  by_cases hu : isUnreservedChar c = true
  · have he : encodeChar c = [c] := by simp [encodeChar, hu]
    rw [he]
    exact decodeSeq_step (decodeStep_raw (unreserved_ne_pct hu) t)
  · have hu' : isUnreservedChar c = false := by
      simpa using hu
    have hvalid : c.toNat < 0xD800 ∨ (0xDFFF < c.toNat ∧ c.toNat < 0x110000) :=
      c.valid
    by_cases hr1 : c.toNat < 0x80
    · have hb : utf8Bytes c = [c.toNat] := by
        simp only [utf8Bytes]
        rw [if_pos hr1]
      have he : encodeChar c = pctByte c.toNat := by
        simp [encodeChar, hu', hb]
      rw [he, decodeSeq_step (decodeStep_1byte c.toNat hr1 t), Char.ofNat_toNat]
    · by_cases hr2 : c.toNat < 0x800
      · have hb : utf8Bytes c = [0xC0 + c.toNat / 64, 0x80 + c.toNat % 64] := by
          simp only [utf8Bytes]
          rw [if_neg hr1, if_pos hr2]
        have he : encodeChar c ++ t = pctByte (0xC0 + c.toNat / 64) ++
            (pctByte (0x80 + c.toNat % 64) ++ t) := by
          simp [encodeChar, hu', hb]
        rw [he,
          decodeSeq_step (decodeStep_2byte c.toNat (by omega) hr2 t),
          Char.ofNat_toNat]
      · by_cases hr3 : c.toNat < 0x10000
        · have hb : utf8Bytes c = [0xE0 + c.toNat / 4096,
              0x80 + (c.toNat / 64) % 64, 0x80 + c.toNat % 64] := by
            simp only [utf8Bytes]
            rw [if_neg hr1, if_neg hr2, if_pos hr3]
          have he : encodeChar c ++ t = pctByte (0xE0 + c.toNat / 4096) ++
              (pctByte (0x80 + (c.toNat / 64) % 64) ++
                (pctByte (0x80 + c.toNat % 64) ++ t)) := by
            simp [encodeChar, hu', hb]
          rw [he,
            decodeSeq_step (decodeStep_3byte c.toNat (by omega) hr3
              (by omega) t),
            Char.ofNat_toNat]
        · have hb : utf8Bytes c = [0xF0 + c.toNat / 262144,
              0x80 + (c.toNat / 4096) % 64, 0x80 + (c.toNat / 64) % 64,
              0x80 + c.toNat % 64] := by
            simp only [utf8Bytes]
            rw [if_neg hr1, if_neg hr2, if_neg hr3]
          have he : encodeChar c ++ t = pctByte (0xF0 + c.toNat / 262144) ++
              (pctByte (0x80 + (c.toNat / 4096) % 64) ++
                (pctByte (0x80 + (c.toNat / 64) % 64) ++
                  (pctByte (0x80 + c.toNat % 64) ++ t))) := by
            simp [encodeChar, hu', hb]
          rw [he,
            decodeSeq_step (decodeStep_4byte c.toNat (by omega)
              (by omega) t),
            Char.ofNat_toNat]

theorem decode_encode (s : Str) : decodeSeq (encodeURIComponent s) = some s := by
  induction s with
  | nil => rfl
  | cons c s ih =>
    have he : encodeURIComponent (c :: s) =
        encodeChar c ++ encodeURIComponent s := by
      simp [encodeURIComponent]
    rw [he, decode_encodeChar, ih]
    rfl

/-! Supporting lemmas about the serializer. -/

theorem isEncoded_of_decode_none {s : Str} (h : decodeSeq s = none) :
    isEncoded s = false := by
  simp [isEncoded, h]

theorem encode_ne_of_decode_none {s : Str} (h : decodeSeq s = none) :
    encodeURIComponent s ≠ s := by
  intro he
  rw [← he, decode_encode] at h
  simp at h

theorem isEncoded_encode_of_ne {s : Str} (h : encodeURIComponent s ≠ s) :
    isEncoded (encodeURIComponent s) = true := by
  simp only [isEncoded, decode_encode]
  simp [Ne.symm h]

theorem decode_of_isEncoded {s : Str} (h : isEncoded s = true) :
    ∃ t, decodeSeq s = some t ∧ t ≠ s := by
  unfold isEncoded at h
  split at h
  · rename_i t ht
    exact ⟨t, ht, by simpa using h⟩
  · simp at h

theorem getLeafLoop_nil {E SP : Type} (render : Option SP → Str → Str)
    (editor : E) (sp : Option SP) (pcn : Option (List Str)) (children : Str)
    (ovs : List (Overrider E)) (result : Str) (lp : LeafProps E) :
    getLeafLoop render editor sp pcn children ovs [] result lp = some result :=
  rfl

theorem getLeaf_no_plugins {E SP : Type} (render : Option SP → Str → Str)
    (editor : E) (sp : Option SP) (pcn : Option (List Str))
    (lp : LeafProps E) :
    getLeaf render editor [] sp pcn lp = some lp.children :=
  rfl

/-- Single-leaf serialization with no plugins: the fragment is the
(`isEncoded`-guarded) percent-encoded leaf text, and the result is its
post-processing. -/
theorem serialize_single_leaf {E SP : Type} (render : Option SP → Str → Str)
    (editor : E) (opts : SerializeOptions SP) (t : Str)
    (marks : List (Str × Bool)) :
    serializeHTMLFromNodes render editor [] opts
      (.consLeaf ⟨t, marks⟩ .nil) =
      some (postProcess opts
        ((if isEncoded t then t else encodeURIComponent t) ++ [])) := by
  rfl

theorem postProcess_nostrip {SP : Type} {opts : SerializeOptions SP}
    (hw : opts.stripWhitespace = false) (hd : opts.stripDataAttributes = false)
    (r : Str) :
    postProcess opts r = if isEncoded r then (decodeSeq r).getD r else r := by
  unfold postProcess
  rw [hw, hd]
  simp

theorem matchLit_self (p t : Str) : matchLit p (p ++ t) = some t := by
  induction p with
  | nil => simp [matchLit]
  | cons c p ih => simp [matchLit, ih]

theorem splitQuote_closed (v : Str) (hv : ∀ c ∈ v, c ≠ '"') (r : Str) :
    splitQuote (v ++ '"' :: r) = some (v, r) := by
  induction v with
  | nil => simp [splitQuote]
  | cons c v ih =>
    have hc : c ≠ '"' := hv c (by simp)
    simp [splitQuote, hc, ih (fun x hx => hv x (by simp [hx]))]

theorem attrMatch_fail_head {pats : List Str}
    (hp : ∀ p ∈ pats, ∃ q, p = ' ' :: q) {c : Char} (hc : c ≠ ' ')
    (t : Str) : attrMatch pats (c :: t) = none := by
  induction pats with
  | nil => rfl
  | cons p ps ih =>
    obtain ⟨q, rfl⟩ := hp p (by simp)
    have hml : matchLit (' ' :: q) (c :: t) = none := by
      simp [matchLit, hc]
    simp only [attrMatch, hml]
    exact ih (fun x hx => hp x (by simp [hx]))

theorem stripAttrsGo_step_match {pats : List Str} {c : Char} {t rem : Str}
    (hm : attrMatch pats (c :: t) = some rem) (f : Nat) :
    stripAttrsGo pats (f + 1) (c :: t) = stripAttrsGo pats f rem := by
  simp only [stripAttrsGo, hm]

theorem stripAttrsGo_step_nomatch {pats : List Str} {c : Char} {t : Str}
    (hm : attrMatch pats (c :: t) = none) (f : Nat) :
    stripAttrsGo pats (f + 1) (c :: t) = c :: stripAttrsGo pats f t := by
  simp only [stripAttrsGo, hm]

theorem stripAttrsGo_id {pats : List Str} :
    ∀ {s : Str}, (∀ t : Str, t <:+ s → attrMatch pats t = none) →
      ∀ fuel, stripAttrsGo pats fuel s = s := by
  intro s
  induction s with
  | nil => intro _ fuel; cases fuel <;> rfl
  | cons c rest ih =>
    intro h fuel
    cases fuel with
    | zero => rfl
    | succ fuel =>
      rw [stripAttrsGo_step_nomatch (h (c :: rest) (List.suffix_refl _)) fuel]
      rw [ih (fun t ht => h t (ht.trans (List.suffix_cons c rest))) fuel]

theorem getNode_untyped {E SP : Type} (render : Option SP → Str → Str)
    (editor : E) (plugins : List (PlatePlugin E)) (sp : Option SP)
    (pcn : Option (List Str)) (props : ElementProps E)
    (h : isFalsyType props.element.nodeTypeOf = true) :
    getNode render editor plugins sp pcn props =
      some ("<div>".toList ++ props.children ++ ("</div>".toList)) := by
  unfold getNode
  rw [h]
  simp

theorem getNodeLoop_no_cap {E SP : Type} (render : Option SP → Str → Str)
    (editor : E) (sp : Option SP) (pcn : Option (List Str))
    (props : ElementProps E) :
    ∀ ps : List (PlatePlugin E),
      (∀ p ∈ ps, p.serializeElement = none ∧ p.renderElement = none) →
      ∀ html, getNodeLoop render editor sp pcn props ps html = html := by
  intro ps
  induction ps with
  | nil => intro _ _; rfl
  | cons p ps ih =>
    intro h html
    have hout : elemOut p editor props = none := by
      unfold elemOut
      rw [(h p (by simp)).1, (h p (by simp)).2]
    simp only [getNodeLoop, hout]
    exact ih (fun q hq => h q (by simp [hq])) html

theorem getNode_no_cap {E SP : Type} (render : Option SP → Str → Str)
    (editor : E) (plugins : List (PlatePlugin E)) (sp : Option SP)
    (pcn : Option (List Str)) (props : ElementProps E)
    (hnc : ∀ p ∈ plugins, p.serializeElement = none ∧ p.renderElement = none)
    (h : isFalsyType props.element.nodeTypeOf = false) :
    getNode render editor plugins sp pcn props = none := by
  unfold getNode
  rw [h]
  simp only [Bool.false_eq_true, if_false]
  exact getNodeLoop_no_cap render editor sp pcn _ plugins (by
    intro p hp
    exact hnc p hp) none

theorem attrMatch_slate_node (v : Str) (hne : v ≠ [])
    (hq : ∀ c ∈ v, c ≠ '"') :
    attrMatch slateAttrPats
      (" data-slate-node=\"".toList ++ (v ++ ['"'])) = some [] := by
  show attrMatch (" data-slate-node=\"".toList :: [(" data-slate-type=\"".toList),
    (" data-slate-leaf=\"".toList)]) _ = some []
  simp only [attrMatch, matchLit_self]
  rw [show (v ++ ['"'] : Str) = v ++ '"' :: [] from rfl,
    splitQuote_closed v hq []]
  simp [hne]

theorem attrMatch_slate_type (v : Str) (hne : v ≠ [])
    (hq : ∀ c ∈ v, c ≠ '"') :
    attrMatch slateAttrPats
      (" data-slate-type=\"".toList ++ (v ++ ['"'])) = some [] := by
  have h1 : matchLit (" data-slate-node=\"".toList)
      (" data-slate-type=\"".toList ++ (v ++ ['"'])) = none := rfl
  show attrMatch (" data-slate-node=\"".toList :: [(" data-slate-type=\"".toList),
    (" data-slate-leaf=\"".toList)]) _ = some []
  simp only [attrMatch, h1, matchLit_self]
  rw [show (v ++ ['"'] : Str) = v ++ '"' :: [] from rfl,
    splitQuote_closed v hq []]
  simp [hne]

theorem attrMatch_slate_leaf (v : Str) (hne : v ≠ [])
    (hq : ∀ c ∈ v, c ≠ '"') :
    attrMatch slateAttrPats
      (" data-slate-leaf=\"".toList ++ (v ++ ['"'])) = some [] := by
  have h1 : matchLit (" data-slate-node=\"".toList)
      (" data-slate-leaf=\"".toList ++ (v ++ ['"'])) = none := rfl
  have h2 : matchLit (" data-slate-type=\"".toList)
      (" data-slate-leaf=\"".toList ++ (v ++ ['"'])) = none := rfl
  show attrMatch (" data-slate-node=\"".toList :: [(" data-slate-type=\"".toList),
    (" data-slate-leaf=\"".toList)]) _ = some []
  simp only [attrMatch, h1, h2, matchLit_self]
  rw [show (v ++ ['"'] : Str) = v ++ '"' :: [] from rfl,
    splitQuote_closed v hq []]
  simp [hne]

theorem attrMatch_testid (v : Str) (hne : v ≠ [])
    (hq : ∀ c ∈ v, c ≠ '"') :
    attrMatch testidAttrPats
      (" data-testid=\"".toList ++ (v ++ ['"'])) = some [] := by
  show attrMatch [(" data-testid=\"".toList)] _ = some []
  simp only [attrMatch, matchLit_self]
  rw [show (v ++ ['"'] : Str) = v ++ '"' :: [] from rfl,
    splitQuote_closed v hq []]
  simp [hne]

theorem slateAttrPats_space : ∀ p ∈ slateAttrPats, ∃ q, p = ' ' :: q := by
  intro p hp
  fin_cases hp
  · exact ⟨("data-slate-node=\"".toList), rfl⟩
  · exact ⟨("data-slate-type=\"".toList), rfl⟩
  · exact ⟨("data-slate-leaf=\"".toList), rfl⟩

/-- The first (`data-slate-*`) replace pass leaves a lone `data-testid`
attribute with a quote- and space-free value untouched. -/
theorem pass1_testid_id (v : Str) (hvc : ∀ c ∈ v, c ≠ '"' ∧ c ≠ ' ')
    (fuel : Nat) :
    stripAttrsGo slateAttrPats fuel (" data-testid=\"".toList ++ (v ++ ['"'])) =
      (" data-testid=\"".toList) ++ (v ++ ['"']) := by
  apply stripAttrsGo_id
  intro t ht
  have hS : (" data-testid=\"".toList ++ (v ++ ['"']) : Str) =
      ' ' :: ("data-testid=\"".toList ++ (v ++ ['"'])) := rfl
  rw [hS] at ht
  rcases List.suffix_cons_iff.mp ht with he | hm
  · rw [he]
    rfl
  · match t, hm with
    | [], _ => rfl
    | c :: t', hm =>
      have hc : c ∈ ("data-testid=\"".toList ++ (v ++ ['"']) : Str) :=
        hm.subset (by simp)
      have hcs : c ≠ ' ' := by
        rcases List.mem_append.mp hc with h | h
        · fin_cases h <;> decide
        · rcases List.mem_append.mp h with h2 | h2
          · exact (hvc c h2).2
          · fin_cases h2
            decide
      exact attrMatch_fail_head slateAttrPats_space hcs t'

theorem stripAttrsGo_nil_str (pats : List Str) (f : Nat) :
    stripAttrsGo pats f [] = [] := by
  cases f <;> rfl

theorem stripAttrsGo_succ {pats : List Str} {s rem : Str}
    (hm : attrMatch pats s = some rem) (hne : s ≠ []) (f : Nat) :
    stripAttrsGo pats (f + 1) s = stripAttrsGo pats f rem := by
  match s, hne with
  | c :: t, _ => exact stripAttrsGo_step_match hm f

/-- Removal of a lone ` data-slate-node="v"` attribute (non-empty,
quote-free value). -/
theorem strip_slate_node_removed (v : Str) (hne : v ≠ [])
    (hq : ∀ c ∈ v, c ≠ '"') :
    stripSlateDataAttributes (" data-slate-node=\"".toList ++ (v ++ ['"'])) =
      [] := by
  simp only [stripSlateDataAttributes]
  have hlen : (" data-slate-node=\"".toList ++ (v ++ ['"']) : Str).length =
      ("data-slate-node=\"".toList ++ (v ++ ['"']) : Str).length + 1 := by
    simp
  rw [hlen,
    stripAttrsGo_succ (attrMatch_slate_node v hne hq) (by simp) _,
    stripAttrsGo_nil_str]
  rfl

theorem strip_slate_type_removed (v : Str) (hne : v ≠ [])
    (hq : ∀ c ∈ v, c ≠ '"') :
    stripSlateDataAttributes (" data-slate-type=\"".toList ++ (v ++ ['"'])) =
      [] := by
  simp only [stripSlateDataAttributes]
  have hlen : (" data-slate-type=\"".toList ++ (v ++ ['"']) : Str).length =
      ("data-slate-type=\"".toList ++ (v ++ ['"']) : Str).length + 1 := by
    simp
  rw [hlen,
    stripAttrsGo_succ (attrMatch_slate_type v hne hq) (by simp) _,
    stripAttrsGo_nil_str]
  rfl

theorem strip_slate_leaf_removed (v : Str) (hne : v ≠ [])
    (hq : ∀ c ∈ v, c ≠ '"') :
    stripSlateDataAttributes (" data-slate-leaf=\"".toList ++ (v ++ ['"'])) =
      [] := by
  simp only [stripSlateDataAttributes]
  have hlen : (" data-slate-leaf=\"".toList ++ (v ++ ['"']) : Str).length =
      ("data-slate-leaf=\"".toList ++ (v ++ ['"']) : Str).length + 1 := by
    simp
  rw [hlen,
    stripAttrsGo_succ (attrMatch_slate_leaf v hne hq) (by simp) _,
    stripAttrsGo_nil_str]
  rfl

/-- Removal of a lone ` data-testid="v"` attribute (non-empty value free of
quotes and spaces). -/
theorem strip_testid_removed (v : Str) (hne : v ≠ [])
    (hvc : ∀ c ∈ v, c ≠ '"' ∧ c ≠ ' ') :
    stripSlateDataAttributes (" data-testid=\"".toList ++ (v ++ ['"'])) =
      [] := by
  simp only [stripSlateDataAttributes]
  rw [pass1_testid_id v hvc _]
  have hlen : (" data-testid=\"".toList ++ (v ++ ['"']) : Str).length =
      ("data-testid=\"".toList ++ (v ++ ['"']) : Str).length + 1 := by
    simp
  rw [hlen,
    stripAttrsGo_succ (attrMatch_testid v hne (fun c hc => (hvc c hc).1))
      (by simp) _,
    stripAttrsGo_nil_str]

theorem postProcess_id {SP : Type} {opts : SerializeOptions SP}
    (hw : opts.stripWhitespace = false) (hd : opts.stripDataAttributes = false)
    {r : Str} (he : isEncoded r = false) : postProcess opts r = r := by
  rw [postProcess_nostrip hw hd, he]
  simp

/-! Claim theorems. -/

/-- C3 (counterexample): with the default options, the leaf text `%0A`
serializes to the empty string — neither the text decoded once (`"\n"`) nor
the text itself, refuting "the final output equals the leaf text decoded at
most once" as stated. -/
theorem c3_counterexample :
    serializeHTMLFromNodes render0 () [] defOpts
        (.consLeaf ⟨("%0A".toList), []⟩ .nil) = some [] ∧
      decodeSeq ("%0A".toList) = some ("\n".toList) ∧
      some ([] : Str) ≠ some ("\n".toList) ∧
      some ([] : Str) ≠ some ("%0A".toList) := by
  refine ⟨by decide, by decide, by decide, by decide⟩

/-- C3 (amended): with the whitespace- and attribute-stripping passes
disabled and no plugins, a single text leaf serializes to its text decoded
at most once: leaf text the decode-detection classifies as encoded comes out
decoded exactly once, any other leaf text comes out unchanged. -/
theorem c3_theorem {E SP : Type} (render : Option SP → Str → Str) (editor : E)
    (t : Str) (marks : List (Str × Bool)) (opts : SerializeOptions SP)
    (hw : opts.stripWhitespace = false) (hd : opts.stripDataAttributes = false) :
    serializeHTMLFromNodes render editor [] opts (.consLeaf ⟨t, marks⟩ .nil) =
      some (if isEncoded t then (decodeSeq t).getD t else t) := by
  rw [serialize_single_leaf, List.append_nil, postProcess_nostrip hw hd]
  by_cases henc : isEncoded t = true
  · simp [henc]
  · have henc' : isEncoded t = false := by simpa using henc
    simp only [henc', Bool.false_eq_true, if_false]
    by_cases hself : encodeURIComponent t = t
    · rw [hself, henc']
      simp
    · rw [isEncoded_encode_of_ne hself]
      simp [decode_encode]

/-- C3 (witness): the amended theorem applied to the encoded leaf text
`%20`, which serializes to a single space. -/
theorem c3_witness :
    serializeHTMLFromNodes render0 () [] noStripOpts
        (.consLeaf ⟨("%20".toList), []⟩ .nil) =
      some (if isEncoded ("%20".toList) then
        (decodeSeq ("%20".toList)).getD ("%20".toList) else ("%20".toList)) :=
  c3_theorem render0 () ("%20".toList) [] noStripOpts rfl rfl

/-- C4 (confirmed): in the `getLeaf` fold, a plugin whose leaf render of the
current leaf props is identical to the `children` value destructured from
the initial leaf props is skipped: the loop continues with the accumulator
and the mutable props unchanged, so the plugin contributes no wrapping
element to the output fragment. -/
theorem c4_theorem {E SP : Type} (render : Option SP → Str → Str) (editor : E)
    (sp : Option SP) (pcn : Option (List Str)) (children : Str)
    (ovs : List (Overrider E)) (p : PlatePlugin E)
    (rest : List (PlatePlugin E)) (result : Str) (lp : LeafProps E)
    (h : leafOut p editor lp = some children) :
    getLeafLoop render editor sp pcn children ovs (p :: rest) result lp =
      getLeafLoop render editor sp pcn children ovs rest result lp := by
  simp only [getLeafLoop, h]
  rw [if_true]

/-- C4 (witness): a leaf plugin echoing the current children value leaves
the fold state unchanged on the leaf `a`. -/
theorem c4_witness :
    getLeafLoop render0 () none none ("a".toList) [] [pEcho] ("a".toList)
        (leafPropsOf () ⟨("a".toList), []⟩) =
      getLeafLoop render0 () none none ("a".toList) [] [] ("a".toList)
        (leafPropsOf () ⟨("a".toList), []⟩) :=
  c4_theorem render0 () none none ("a".toList) [] pEcho [] ("a".toList)
    (leafPropsOf () ⟨("a".toList), []⟩) (by decide)

/-- C9 (confirmed): when decoding throws on a malformed percent-sequence,
`isEncoded` returns `false`; the top-level decode-detection
(`postProcess` with the optional passes off) keeps the original string, and
serializing such a leaf with no plugins completes with the original text
rather than raising an error. -/
theorem c9_theorem {E SP : Type} (render : Option SP → Str → Str) (editor : E)
    (s : Str) (marks : List (Str × Bool)) (opts : SerializeOptions SP)
    (h : decodeSeq s = none) (hw : opts.stripWhitespace = false)
    (hd : opts.stripDataAttributes = false) :
    isEncoded s = false ∧ postProcess opts s = s ∧
      serializeHTMLFromNodes render editor [] opts
        (.consLeaf ⟨s, marks⟩ .nil) = some s := by
  have he := isEncoded_of_decode_none h
  refine ⟨he, ?_, ?_⟩
  · rw [postProcess_nostrip hw hd, he]
    simp
  · rw [serialize_single_leaf, List.append_nil, postProcess_nostrip hw hd]
    rw [he]
    simp only [Bool.false_eq_true, if_false]
    have hne := encode_ne_of_decode_none h
    rw [isEncoded_encode_of_ne hne]
    simp [decode_encode]

/-- C9 (witness): the theorem applied to the malformed input `100%`. -/
theorem c9_witness :
    isEncoded ("100%".toList) = false ∧
      postProcess noStripOpts ("100%".toList) = ("100%".toList) ∧
      serializeHTMLFromNodes render0 () [] noStripOpts
        (.consLeaf ⟨("100%".toList), []⟩ .nil) = some ("100%".toList) :=
  c9_theorem render0 () ("100%".toList) [] noStripOpts (by decide) rfl rfl

/-- C1 (counterexample): with a capable but non-owning plugin listed before
a capable owning one, the element of type `t` renders through the owning
plugin (`E`), not the `<div>` fallback — so dispatch does continue scanning
and the later plugin is consulted, refuting the claim as stated. -/
theorem c1_counterexample :
    serializeHTMLFromNodes render0 () [pCapOnly, pOwnT] defOpts
        (.consElem (some ("t".toList)) .nil .nil) = some ("E".toList) ∧
      (some ("E".toList) : Option Str) ≠ some ("<div></div>".toList) := by
  refine ⟨by decide, by decide⟩

/-- C1 (amended): in the element dispatch scan, a plugin exposing
`serialize.element` or `renderElement` whose deserialize rules do not own
the element's type records the plain `<div>` fallback but the scan
continues with the remaining plugins; a capable plugin that does own the
type ends the scan with its rendered (class-stripped) markup. -/
theorem c1_theorem {E SP : Type} (render : Option SP → Str → Str) (editor : E)
    (sp : Option SP) (pcn : Option (List Str)) (props : ElementProps E)
    (p : PlatePlugin E) (rest : List (PlatePlugin E)) (html : Option Str)
    (out : Str) (hcap : elemOut p editor props = some out) :
    (ownsType p editor (strJS props.element.nodeTypeOf) = false →
      getNodeLoop render editor sp pcn props (p :: rest) html =
        getNodeLoop render editor sp pcn props rest
          (some ("<div>".toList ++ props.children ++ ("</div>".toList)))) ∧
    (ownsType p editor (strJS props.element.nodeTypeOf) = true →
      getNodeLoop render editor sp pcn props (p :: rest) html =
        some (stripClassNames pcn (render sp out))) := by
  constructor
  · intro hown
    simp only [getNodeLoop, hcap, hown]
    simp
  · intro hown
    simp only [getNodeLoop, hcap, hown, if_true]

/-- C1 (witness): the amended theorem applied to a concrete capable
non-owning plugin (scan continues with the fallback recorded) and to a
concrete capable owning plugin (scan stops with its markup). -/
theorem c1_witness :
    (getNodeLoop render0 () none none propsT [pCapOnly] none =
      getNodeLoop render0 () none none propsT []
        (some ("<div>".toList ++ propsT.children ++ ("</div>".toList)))) ∧
    (getNodeLoop render0 () none none propsT [pOwnT] none =
      some (stripClassNames none (render0 none ("E".toList)))) :=
  ⟨(c1_theorem render0 () none none propsT pCapOnly [] none ("P1".toList)
      (by decide)).1 (by decide),
    (c1_theorem render0 () none none propsT pOwnT [] none ("E".toList)
      (by decide)).2 (by decide)⟩

/-- C5 (counterexample): with a registered leaf plugin that renders every
leaf as `X`, the untyped element with children `[{text: "a"}]` serializes to
`<div>X</div>`, not `<div>a</div>` — so the concrete serialization is not
independent of the registered plugins. -/
theorem c5_counterexample :
    serializeHTMLFromNodes render0 () [pLeafX] defOpts
        (.consElem none (.consLeaf ⟨("a".toList), []⟩ .nil) .nil) =
      some ("<div>X</div>".toList) ∧
    (some ("<div>X</div>".toList) : Option Str) ≠
      some ("<div>a</div>".toList) := by
  refine ⟨by decide, by decide⟩

/-- C5 (amended): an `ElementNode` with `type` undefined makes `getNode`
return the plain `<div>` wrapper around the already-serialized children
without consulting any plugin; the element with children `[{text: "a"}]`
serializes to `<div>a</div>` when the registered plugins do not render the
leaf (here: the empty registry). -/
theorem c5_theorem :
    (∀ {E SP : Type} (render : Option SP → Str → Str) (editor : E)
      (plugins : List (PlatePlugin E)) (sp : Option SP)
      (pcn : Option (List Str)) (props : ElementProps E),
      props.element.nodeTypeOf = none →
      getNode render editor plugins sp pcn props =
        some ("<div>".toList ++ props.children ++ ("</div>".toList))) ∧
    serializeHTMLFromNodes render0 () [] defOpts
        (.consElem none (.consLeaf ⟨("a".toList), []⟩ .nil) .nil) =
      some ("<div>a</div>".toList) := by
  constructor
  · intro E SP render editor plugins sp pcn props h
    exact getNode_untyped render editor plugins sp pcn props (by rw [h]; rfl)
  · decide

/-- C5 (witness): the untyped-fallback conjunct applied to concrete
untyped element props. -/
theorem c5_witness :
    getNode render0 () [] none none propsUn =
      some ("<div>".toList ++ propsUn.children ++ ("</div>".toList)) :=
  c5_theorem.1 render0 () [] none none propsUn (by decide)

/-- C6 (counterexample): with a registry containing a capable plugin owning
only `other`, an element of the unmatched type `custom-x` produces the
`<div>` fallback fragment, not an empty/absent fragment — `getNode`'s
result is not `undefined` for such a registry. -/
theorem c6_counterexample :
    serializeHTMLFromNodes render0 () [pOwnOther] defOpts
        (.consElem (some ("custom-x".toList)) .nil
          (.consLeaf ⟨("b".toList), []⟩ .nil)) =
      some ("<div></div>b".toList) ∧
    (some ("<div></div>b".toList) : Option Str) ≠ some ("b".toList) := by
  refine ⟨by decide, by decide⟩

/-- C6 (amended): when no registered plugin exposes an element capability,
`getNode` returns `undefined` for a typed element and the element joins the
output as an empty fragment, so serialization of the sibling nodes
completes with a partial result; a capable non-owning plugin instead yields
the `<div>` fallback (see the counterexample), and in either case
serialization does not fail. -/
theorem c6_theorem :
    (∀ {E SP : Type} (render : Option SP → Str → Str) (editor : E)
      (plugins : List (PlatePlugin E)) (sp : Option SP)
      (pcn : Option (List Str)) (props : ElementProps E),
      (∀ p ∈ plugins, p.serializeElement = none ∧ p.renderElement = none) →
      isFalsyType props.element.nodeTypeOf = false →
      getNode render editor plugins sp pcn props = none) ∧
    (∀ {E SP : Type} (render : Option SP → Str → Str) (editor : E)
      (plugins : List (PlatePlugin E)) (opts : SerializeOptions SP)
      (ty : Option Str) (ch rest : NodeList) (chFrags : List Str),
      (∀ p ∈ plugins, p.serializeElement = none ∧ p.renderElement = none) →
      isFalsyType ty = false →
      serializeFragments render editor plugins (innerOpts opts) ch =
        some chFrags →
      serializeHTMLFromNodes render editor plugins opts
        (.consElem ty ch rest) =
        serializeHTMLFromNodes render editor plugins opts rest) := by
  constructor
  · intro E SP render editor plugins sp pcn props hnc hty
    exact getNode_no_cap render editor plugins sp pcn props hnc hty
  · intro E SP render editor plugins opts ty ch rest chFrags hnc hty hch
    unfold serializeHTMLFromNodes
    simp only [serializeFragments]
    rw [hch]
    cases hr : serializeFragments render editor plugins opts rest with
    | none => simp
    | some fs =>
      have hg : getNode render editor plugins opts.slateProps
          opts.preserveClassNames
          { element := .elemV ty ch,
            children := encodeURIComponent
              (postProcess (innerOpts opts) (List.flatten chFrags)),
            attributes := [("data-slate-node".toList, ("element".toList))],
            editor := editor } = none :=
        getNode_no_cap _ _ _ _ _ _ hnc hty
      simp only [hg]
      simp

/-- C6 (witness): both conjuncts applied to concrete inputs — an empty
registry with a `custom-x` element, with sibling leaf `b`. -/
theorem c6_witness :
    getNode render0 () [] none none propsT = none ∧
      serializeHTMLFromNodes render0 () [] defOpts
        (.consElem (some ("custom-x".toList)) .nil
          (.consLeaf ⟨("b".toList), []⟩ .nil)) =
      serializeHTMLFromNodes render0 () [] defOpts
        (.consLeaf ⟨("b".toList), []⟩ .nil) :=
  ⟨c6_theorem.1 render0 () [] none none propsT (by simp) (by decide),
    c6_theorem.2 render0 () [] defOpts (some ("custom-x".toList)) .nil
      (.consLeaf ⟨("b".toList), []⟩ .nil) [] (by simp) (by decide) (by decide)⟩

/-- C10 (confirmed): an untyped element never reaches the override
pipeline — `getNode` is insensitive to every plugin's `overrideProps` in
that case; for a typed element the pipeline is applied before dispatch, as
an overrider rewriting the element's type to `t` makes the `t`-owning
plugin render it, while the same registry leaves an untyped element with
the plain `<div>` wrapper. -/
theorem c10_theorem :
    (∀ {E SP : Type} (render : Option SP → Str → Str) (editor : E)
      (plugins : List (PlatePlugin E)) (sp : Option SP)
      (pcn : Option (List Str)) (props : ElementProps E),
      props.element.nodeTypeOf = none →
      getNode render editor plugins sp pcn props =
        getNode render editor (plugins.map dropOverrideProps) sp pcn props) ∧
    getNode render0 () [pOverT] none none propsU = some ("E".toList) ∧
    getNode render0 () [pOverT] none none propsUn =
      some ("<div>a</div>".toList) := by
  refine ⟨?_, by decide, by decide⟩
  intro E SP render editor plugins sp pcn props h
  have h' : isFalsyType props.element.nodeTypeOf = true := by
    rw [h]
    rfl
  rw [getNode_untyped render editor plugins sp pcn props h',
    getNode_untyped render editor (plugins.map dropOverrideProps) sp pcn
      props h']

/-- C10 (witness): the overrideProps-insensitivity conjunct applied to
concrete untyped props and the `pOverT` registry. -/
theorem c10_witness :
    getNode render0 () [pOverT] none none propsUn =
      getNode render0 () ([pOverT].map dropOverrideProps) none none propsUn :=
  c10_theorem.1 render0 () [pOverT] none none propsUn (by decide)

/-- C2 (counterexample): on the nested input `nodeC2` the serializer
differs from the spec's reading in which inner recursive calls do not
re-apply the post-processing passes: the code strips the attribute-shaped
leaf text at the inner level (giving `<div></div>`), the spec-reading
variant keeps it (percent-encoded) in the output. -/
theorem c2_counterexample :
    serializeHTMLFromNodes render0 () [] defOpts nodeC2 =
        some ("<div></div>".toList) ∧
      serializeSpecOnce render0 () [] defOpts nodeC2 =
        some ("<div>%20data-slate-node%3D%22x%22</div>".toList) ∧
      serializeHTMLFromNodes render0 () [] defOpts nodeC2 ≠
        serializeSpecOnce render0 () [] defOpts nodeC2 := by
  refine ⟨by decide, by decide, by decide⟩

/-- C2 (amended): the post-processing passes run at every recursion level —
the recursive inner call re-applies decode-if-needed and, since
`stripDataAttributes` is not threaded down, attribute stripping with its
default `true`: the attribute-shaped leaf text is removed by the inner call
even when the top-level call has `stripDataAttributes := false`, making the
top-level flag irrelevant on this input. -/
theorem c2_theorem :
    serializeHTMLFromNodes render0 () [] noDataOpts nodeC2 =
        some ("<div></div>".toList) ∧
      serializeHTMLFromNodes render0 () [] defOpts nodeC2 =
        serializeHTMLFromNodes render0 () [] noDataOpts nodeC2 := by
  refine ⟨by decide, by decide⟩

/-- C7 (counterexample): an empty-valued ` data-testid=""` occurrence is
not removed by `stripSlateDataAttributes` (the regex requires a non-empty
value), and it survives in the final output with the default
`stripDataAttributes = true` — refuting removal "regardless of the
attribute's value". -/
theorem c7_counterexample :
    serializeHTMLFromNodes render0 () [pEmptyTestid] defOpts
        (.consElem (some ("t".toList)) .nil .nil) =
      some ("<p data-testid=\"\">a</p>".toList) ∧
    stripSlateDataAttributes (" data-testid=\"\"".toList) =
      (" data-testid=\"\"".toList) := by
  refine ⟨by decide, by decide⟩

/-- C7 (amended): when `stripDataAttributes` is true (the default), every
occurrence of ` data-slate-node="v"`, ` data-slate-type="v"`,
` data-slate-leaf="v"` (non-empty quote-free value `v`) and
` data-testid="v"` (non-empty value free of quotes and spaces) is removed,
while empty-valued occurrences survive (see the counterexample); when
`stripDataAttributes` is false these attributes are preserved in the
output. -/
theorem c7_theorem :
    (∀ v : Str, v ≠ [] → (∀ c ∈ v, c ≠ '"') →
      stripSlateDataAttributes
        (" data-slate-node=\"".toList ++ (v ++ ['"'])) = []) ∧
    (∀ v : Str, v ≠ [] → (∀ c ∈ v, c ≠ '"') →
      stripSlateDataAttributes
        (" data-slate-type=\"".toList ++ (v ++ ['"'])) = []) ∧
    (∀ v : Str, v ≠ [] → (∀ c ∈ v, c ≠ '"') →
      stripSlateDataAttributes
        (" data-slate-leaf=\"".toList ++ (v ++ ['"'])) = []) ∧
    (∀ v : Str, v ≠ [] → (∀ c ∈ v, c ≠ '"' ∧ c ≠ ' ') →
      stripSlateDataAttributes
        (" data-testid=\"".toList ++ (v ++ ['"'])) = []) ∧
    serializeHTMLFromNodes render0 () [pDataAttrs] defOpts
        (.consElem (some ("t".toList)) .nil .nil) = some ("<p>a</p>".toList) ∧
    serializeHTMLFromNodes render0 () [pDataAttrs] noDataOpts
        (.consElem (some ("t".toList)) .nil .nil) =
      some ("<p data-slate-node=\"element\" data-testid=\"x\">a</p>".toList) :=
  ⟨strip_slate_node_removed, strip_slate_type_removed,
    strip_slate_leaf_removed, strip_testid_removed, by decide, by decide⟩

/-- C7 (witness): the four removal conjuncts applied to the value `x`. -/
theorem c7_witness :
    stripSlateDataAttributes
        (" data-slate-node=\"".toList ++ ("x".toList ++ ['"'])) = [] ∧
      stripSlateDataAttributes
        (" data-slate-type=\"".toList ++ ("x".toList ++ ['"'])) = [] ∧
      stripSlateDataAttributes
        (" data-slate-leaf=\"".toList ++ ("x".toList ++ ['"'])) = [] ∧
      stripSlateDataAttributes
        (" data-testid=\"".toList ++ ("x".toList ++ ['"'])) = [] :=
  ⟨c7_theorem.1 ("x".toList) (by decide) (by decide),
    c7_theorem.2.1 ("x".toList) (by decide) (by decide),
    c7_theorem.2.2.1 ("x".toList) (by decide) (by decide),
    c7_theorem.2.2.2.1 ("x".toList) (by decide) (by decide)⟩

/-- C8 (counterexample): with a pure leaf plugin whose renders produce the
fragments `%4` and `1`, serializing the two leaves together yields `A`
(the top-level decode fires across the fragment boundary), while the
concatenation of the individual serializations is `%41`. -/
theorem c8_counterexample :
    serializeHTMLFromNodes render0 () [pSplitPct] defOpts
        (.consLeaf ⟨("x".toList), []⟩ (.consLeaf ⟨("y".toList), []⟩ .nil)) =
      some ("A".toList) ∧
    serializeHTMLFromNodes render0 () [pSplitPct] defOpts
        (.consLeaf ⟨("x".toList), []⟩ .nil) = some ("%4".toList) ∧
    serializeHTMLFromNodes render0 () [pSplitPct] defOpts
        (.consLeaf ⟨("y".toList), []⟩ .nil) = some ("1".toList) ∧
    ("A".toList) ≠ ("%4".toList) ++ ("1".toList) := by
  refine ⟨by decide, by decide, by decide, by decide⟩

/-- Pointwise decomposition used by the sibling-concatenation claim: when
the per-node fragments all pass the decode-detection unchanged and the
optional passes are off, each node serialized alone gives exactly its
fragment. -/
theorem serialize_singletons {E SP : Type} (render : Option SP → Str → Str)
    (editor : E) (plugins : List (PlatePlugin E)) (opts : SerializeOptions SP)
    (hw : opts.stripWhitespace = false)
    (hd : opts.stripDataAttributes = false) :
    ∀ (nodes : NodeList) (frags : List Str),
      serializeFragments render editor plugins opts nodes = some frags →
      (∀ f ∈ frags, isEncoded f = false) →
      (singletons nodes).map
        (fun nl => serializeHTMLFromNodes render editor plugins opts nl) =
        frags.map some := by
  intro nodes
  induction nodes with
  | nil =>
    intro frags h _
    simp only [serializeFragments, Option.some.injEq] at h
    subst h
    simp [singletons]
  | consLeaf t rest ih =>
    intro frags h hf
    simp only [serializeFragments] at h
    cases hl : getLeaf render editor plugins opts.slateProps
        opts.preserveClassNames (leafPropsOf editor t) with
    | none => rw [hl] at h; simp at h
    | some f =>
      rw [hl] at h
      cases hr : serializeFragments render editor plugins opts rest with
      | none => rw [hr] at h; simp at h
      | some fs =>
        rw [hr] at h
        rw [Option.some_inj] at h
        subst h
        simp only [singletons, List.map_cons]
        congr 1
        · unfold serializeHTMLFromNodes
          simp only [serializeFragments, hl]
          simp [postProcess_id hw hd (hf f (by simp))]
        · exact ih fs hr (fun x hx => hf x (by simp [hx]))
  | consElem ty ch rest ihch ihrest =>
    intro frags h hf
    simp only [serializeFragments] at h
    cases hi : serializeFragments render editor plugins (innerOpts opts)
        ch with
    | none => rw [hi] at h; simp at h
    | some innerFrags =>
      rw [hi] at h
      cases hr : serializeFragments render editor plugins opts rest with
      | none => rw [hr] at h; simp at h
      | some fs =>
        rw [hr] at h
        rw [Option.some_inj] at h
        subst h
        simp only [singletons, List.map_cons]
        congr 1
        · have hg := hf _ (List.mem_cons_self _ _)
          unfold serializeHTMLFromNodes
          simp only [serializeFragments, hi]
          generalize hG : (getNode render editor plugins opts.slateProps
              opts.preserveClassNames
              { element := NodeV.elemV ty ch,
                children := encodeURIComponent
                  (postProcess (innerOpts opts) innerFrags.flatten),
                attributes := [("data-slate-node".toList, ("element".toList))],
                editor := editor }).getD [] = g at hg ⊢
          simp [postProcess_id hw hd hg]
        · exact ihrest fs hr (fun x hx => hf x (by simp [hx]))

/-- C8 (amended): when the optional stripping passes are off and the
decode-detection classifies the joined result and every per-node fragment
as not encoded, serializing a sequence of sibling nodes equals the joined
fragments, and each node serialized individually yields exactly its
fragment — so the whole equals the in-order concatenation of the individual
serializations.  Without those conditions the top-level decode can fire
across fragment boundaries (see the counterexample). -/
theorem c8_theorem {E SP : Type} (render : Option SP → Str → Str)
    (editor : E) (plugins : List (PlatePlugin E))
    (opts : SerializeOptions SP) (nodes : NodeList) (frags : List Str)
    (hfr : serializeFragments render editor plugins opts nodes = some frags)
    (hw : opts.stripWhitespace = false)
    (hd : opts.stripDataAttributes = false)
    (hfe : ∀ f ∈ frags, isEncoded f = false)
    (hje : isEncoded (List.flatten frags) = false) :
    serializeHTMLFromNodes render editor plugins opts nodes =
        some (List.flatten frags) ∧
      (singletons nodes).map
        (fun nl => serializeHTMLFromNodes render editor plugins opts nl) =
        frags.map some := by
  constructor
  · unfold serializeHTMLFromNodes
    rw [hfr]
    simp [postProcess_id hw hd hje]
  · exact serialize_singletons render editor plugins opts hw hd nodes frags
      hfr hfe

/-- C8 (witness): the amended theorem applied to the two leaves `a`, `b`
with no plugins: the sequence serializes to `ab` and the individual
serializations give `a` and `b`. -/
theorem c8_witness :
    serializeHTMLFromNodes render0 () [] noStripOpts
        (.consLeaf ⟨("a".toList), []⟩ (.consLeaf ⟨("b".toList), []⟩ .nil)) =
      some (List.flatten [("a".toList), ("b".toList)]) ∧
      (singletons (.consLeaf ⟨("a".toList), []⟩
          (.consLeaf ⟨("b".toList), []⟩ .nil))).map
        (fun nl => serializeHTMLFromNodes render0 () [] noStripOpts nl) =
        ([("a".toList), ("b".toList)]).map some :=
  c8_theorem render0 () [] noStripOpts
    (.consLeaf ⟨("a".toList), []⟩ (.consLeaf ⟨("b".toList), []⟩ .nil))
    [("a".toList), ("b".toList)] (by decide) rfl rfl
    (by decide) (by decide)

